import Mathlib

/-!
Shallow embedding of the reconciliation pipeline in `src/App.tsx`
(`processData` and its helpers `groupBySum`, `getQtyCol`).

Modelling conventions:
* CSV cells are strings (PapaParse with `header: true` yields string cells);
  a row is an association list from column name to cell text.
* JavaScript numbers are modelled as exact rationals `ℚ`.  `parseFloat` is an
  abstract parameter `pf : String → Option ℚ` (`none` models `NaN`), so every
  theorem holds for an arbitrary numeric parser; `parseFloat(x) || 0` becomes
  `parseNum pf`, which maps an absent cell or a failed parse to `0`.
* JavaScript `Map` and `Set` preserve insertion order; they are modelled as
  association lists / deduplicated lists built by left folds.
* `Math.floor` is `Int.floor` on `ℚ`; a JavaScript runtime `TypeError`
  (indexing a missing element) is modelled by `Option`, `none` = crash.
-/

namespace Reconcile

/-- A parsed CSV row: column name ↦ cell text. -/
abbrev Row := List (String × String)

/-- A parsed CSV file: the rows plus the header list (`results.meta.fields`). -/
structure ParsedCSV where
  data : List Row
  headers : List String

/-- Cell access `row[col]`.  The column name is optional because
`getQtyCol` can produce `headers[1] === undefined`; looking a row up by an
undefined column yields no value. -/
def getCell (row : Row) (c : Option String) : Option String :=
  c.bind fun cn => (row.find? fun p => p.1 = cn).map (·.2)

/-- `parseFloat(row[col]) || 0`: absent cell or failed parse contributes `0`. -/
def parseNum (pf : String → Option ℚ) (c : Option String) : ℚ :=
  ((c.bind pf).getD 0)

/-- Column-name constants from `processData`. -/
def COL_S_CODE : String := "کد کالا"

def COL_S_QTY : String := "تعداد واحد جز"

def COL_S_TAX_PCT : String := "درصد مالیات"

def COL_S_TOTAL : String := "فروش"

def COL_S_TAX_AMT : String := "جمع مالیات سطر"

/-- The candidate quantity-column names tried by `getQtyCol`, in order. -/
def qtyCandidates : List String := [COL_S_QTY, "تعداد", "مانده تعدادی"]

/-- Model of JavaScript `String.prototype.trim` (an external library call):
drop leading and trailing whitespace. -/
def trimStr (s : String) : String :=
  ⟨((s.data.dropWhile Char.isWhitespace).reverse.dropWhile Char.isWhitespace).reverse⟩

/-- `getQtyCol`: first header whose trimmed text equals a candidate, else
`headers[1]` (which is `undefined`, i.e. `none`, when fewer than two
headers exist — the code performs no schema check). -/
def getQtyCol (df : ParsedCSV) : Option String :=
  match qtyCandidates.findSome? (fun p => df.headers.find? fun h => trimStr h = p) with
  | some h => some h
  | none => df.headers[1]?

/-- Lookup in an association list (JS `Map.get`). -/
def alGet (m : List (String × ℚ)) (k : String) : Option ℚ :=
  (m.find? fun p => p.1 = k).map (·.2)

/-- `result.set(key, (result.get(key) || 0) + val)`: update in place if the
key exists (JS `Map.set` keeps the key's position), else append. -/
def alAdd (m : List (String × ℚ)) (k : String) (v : ℚ) : List (String × ℚ) :=
  if (m.find? fun p => p.1 = k).isSome then
    m.map fun p => if p.1 = k then (p.1, p.2 + v) else p
  else m ++ [(k, v)]

/-- One row of `groupBySum`'s fold: skip rows whose key coerces to the empty
string (`String(row[groupCol] || '')`), otherwise accumulate the parsed
value (`parseFloat(row[sumCol]) || 0`). -/
def gbsStep (pf : String → Option ℚ) (groupCol : String) (sumCol : Option String)
    (m : List (String × ℚ)) (row : Row) : List (String × ℚ) :=
  let key := (getCell row (some groupCol)).getD ""
  let val := parseNum pf (getCell row sumCol)
  if key ≠ "" then alAdd m key val else m

/-- `groupBySum(data, groupCol, sumCol)` from `src/App.tsx`. -/
def groupBySum (pf : String → Option ℚ) (data : List Row) (groupCol : String)
    (sumCol : Option String) : List (String × ℚ) :=
  data.foldl (gbsStep pf groupCol sumCol) []

/-- Insertion-order deduplication (JS `Set` built from a spread). -/
def dedupL {α : Type} [DecidableEq α] (l : List α) : List α :=
  l.foldl (fun acc c => if c ∈ acc then acc else acc ++ [c]) []

/-- `dfSales.data.map(r => r[COL_S_CODE]).filter(Boolean)`: the raw code cells
of the sales rows, dropping absent and empty values. -/
def salesCodes (rows : List Row) : List String :=
  (rows.filterMap fun r => getCell r (some COL_S_CODE)).filter fun c => c ≠ ""

/-- The universal code set `allCodes` (a JS `Set`, insertion order). -/
def allCodesOf (openSum purchSum retSum : List (String × ℚ)) (salesData : List Row) :
    List String :=
  dedupL (openSum.map (·.1) ++ purchSum.map (·.1) ++ retSum.map (·.1)
    ++ salesCodes salesData)

/-- The per-code sales aggregate `salesAgg` entry; `tax_pct` is the rate of
the first sales row seen for the code (it is written only on insertion). -/
structure SAgg where
  qty : ℚ
  total : ℚ
  tax : ℚ
  tax_pct : ℚ
deriving DecidableEq, Repr

/-- One sales row of the `salesAgg` fold in `processData`. -/
def saStep (pf : String → Option ℚ) (m : List (String × SAgg)) (row : Row) :
    List (String × SAgg) :=
  let code := (getCell row (some COL_S_CODE)).getD ""
  if code = "" then m else
    let qty := parseNum pf (getCell row (some COL_S_QTY))
    let total := parseNum pf (getCell row (some COL_S_TOTAL))
    let tax := parseNum pf (getCell row (some COL_S_TAX_AMT))
    let taxPct := parseNum pf (getCell row (some COL_S_TAX_PCT))
    if (m.find? fun p => p.1 = code).isSome then
      m.map fun p =>
        if p.1 = code then (p.1, ⟨p.2.qty + qty, p.2.total + total, p.2.tax + tax, p.2.tax_pct⟩)
        else p
    else m ++ [(code, ⟨qty, total, tax, taxPct⟩)]

/-- `salesAgg` built from the sales rows. -/
def buildSalesAgg (pf : String → Option ℚ) (rows : List Row) : List (String × SAgg) :=
  rows.foldl (saStep pf) []

/-- One sales row of the `taxMap` fold: first tax percentage seen per code. -/
def tmStep (pf : String → Option ℚ) (m : List (String × ℚ)) (row : Row) :
    List (String × ℚ) :=
  let code := (getCell row (some COL_S_CODE)).getD ""
  if code = "" then m else
    let taxPct := parseNum pf (getCell row (some COL_S_TAX_PCT))
    if (m.find? fun p => p.1 = code).isSome then m else m ++ [(code, taxPct)]

/-- `taxMap` built from the sales rows. -/
def buildTaxMap (pf : String → Option ℚ) (rows : List Row) : List (String × ℚ) :=
  rows.foldl (tmStep pf) []

/-- A `finalData` record (inventory totals merged with the sales aggregate).
`ending` is set at construction and never updated by redistribution; the
report recomputes `available - qty` at the end. -/
structure Rec where
  code : String
  q_open : ℚ
  q_purch : ℚ
  q_ret : ℚ
  available : ℚ
  qty : ℚ
  total : ℚ
  tax : ℚ
  tax_pct : ℚ
  ending : ℚ
deriving DecidableEq, Repr

/-- Build the `finalData` record for one code (the `inventory` map entry and
the merge loop of `processData`; absent map entries default to zero via
`|| 0` / the all-zero sales literal). -/
def mkRec (openSum purchSum retSum : List (String × ℚ)) (salesAgg : List (String × SAgg))
    (taxMap : List (String × ℚ)) (code : String) : Rec :=
  let q_open := (alGet openSum code).getD 0
  let q_purch := (alGet purchSum code).getD 0
  let q_ret := (alGet retSum code).getD 0
  let available := q_open + q_purch - q_ret
  let sa := (((salesAgg.find? fun p => p.1 = code).map (·.2)).getD ⟨0, 0, 0, 0⟩)
  let tax_pct := (alGet taxMap code).getD 0
  { code := code, q_open := q_open, q_purch := q_purch, q_ret := q_ret,
    available := available, qty := sa.qty, total := sa.total, tax := sa.tax,
    tax_pct := tax_pct, ending := available - sa.qty }

/-- `deficitRatio = Math.min(1.0, Math.abs(item.ending) / (item[COL_S_QTY] || 1))`.
Note the denominator is the JavaScript truthiness guard `qty || 1`:
`1` exactly when `qty = 0`, otherwise `qty` itself. -/
def deficitRatio (r : Rec) : ℚ :=
  min 1 (|r.ending| / (if r.qty = 0 then 1 else r.qty))

/-- `moveQty` for a donor. -/
def moveQtyOf (r : Rec) : ℚ := r.qty * deficitRatio r

/-- `moveSales` for a donor. -/
def moveSalesOf (r : Rec) : ℚ := r.total * deficitRatio r

/-- `moveTax` for a donor. -/
def moveTaxOf (r : Rec) : ℚ := r.tax * deficitRatio r

/-- The records of one tax bracket (`grpIndices`, values only). -/
def bracketOf (fd : List Rec) (g : ℚ) : List Rec :=
  fd.filter fun r => r.tax_pct = g

/-- `negItems`: donors of a bracket. -/
def donorsOf (fd : List Rec) (g : ℚ) : List Rec :=
  (bracketOf fd g).filter fun r => r.ending < 0

/-- `posItems`: recipients of a bracket. -/
def recipsOf (fd : List Rec) (g : ℚ) : List Rec :=
  (bracketOf fd g).filter fun r => r.ending > 0 ∧ r.total > 0

/-- `totalMoveQty` accumulated over the donors of a bracket. -/
def totalMoveQty (fd : List Rec) (g : ℚ) : ℚ :=
  ((donorsOf fd g).map moveQtyOf).sum

/-- `totalMoveSales` accumulated over the donors of a bracket. -/
def totalMoveSales (fd : List Rec) (g : ℚ) : ℚ :=
  ((donorsOf fd g).map moveSalesOf).sum

/-- `totalMoveTax` accumulated over the donors of a bracket. -/
def totalMoveTax (fd : List Rec) (g : ℚ) : ℚ :=
  ((donorsOf fd g).map moveTaxOf).sum

/-- `totalPosSales`: sum of recipient sales amounts of a bracket. -/
def totalPosSales (fd : List Rec) (g : ℚ) : ℚ :=
  ((recipsOf fd g).map (·.total)).sum

/-- The update applied to one record when bracket `g` is redistributed
(donors lose their move, recipients gain their weighted share, everything
else — including records of other brackets — is untouched). -/
def redistRec (fd : List Rec) (g : ℚ) (r : Rec) : Rec :=
  if r.tax_pct = g then
    if r.ending < 0 then
      { r with qty := r.qty - moveQtyOf r, total := r.total - moveSalesOf r,
               tax := r.tax - moveTaxOf r }
    else if r.ending > 0 ∧ r.total > 0 then
      let weight := r.total / totalPosSales fd g
      { r with qty := r.qty + weight * totalMoveQty fd g,
               total := r.total + weight * totalMoveSales fd g,
               tax := r.tax + weight * totalMoveTax fd g }
    else r
  else r

/-- Redistribution of one tax bracket (the body of the `taxGroups.forEach`).
If either partition is empty nothing happens. -/
def distributeGroup (fd : List Rec) (g : ℚ) : List Rec :=
  if donorsOf fd g ≠ [] ∧ recipsOf fd g ≠ [] then fd.map (redistRec fd g)
  else fd

/-- `taxGroups = [...new Set(finalData.map(r => r[COL_S_TAX_PCT]))]`. -/
def taxGroupsOf (fd : List Rec) : List ℚ :=
  dedupL (fd.map (·.tax_pct))

/-- The whole redistribution engine: fold the brackets over `finalData`. -/
def distribute (fd : List Rec) : List Rec :=
  (taxGroupsOf fd).foldl distributeGroup fd

/-- One step of the JS `reduce` that finds the index of the largest value. -/
def amStep (acc p : ℕ × ℚ) : ℕ × ℚ :=
  if p.2 > acc.2 then p else acc

/-- `finalData.reduce((maxIdx, r, i, arr) => v > arr[maxIdx].v ? i : maxIdx, 0)`:
index of the first maximal element (0 on an empty list). -/
def argmaxIdx (l : List ℚ) : ℕ :=
  (l.enum.foldl amStep (0, l.headD 0)).1

/-- `salesRatio`: target over current total, 1 when the total is not positive. -/
def salesRatio (targetSales : ℚ) (totals : List ℚ) : ℚ :=
  if totals.sum > 0 then targetSales / totals.sum else 1

/-- The floored scaled sales amounts `فروش_نهایی` before the remainder fix. -/
def salesScaled (targetSales : ℚ) (totals : List ℚ) : List ℚ :=
  totals.map fun t => ((⌊t * salesRatio targetSales totals⌋ : ℤ) : ℚ)

/-- The sales balancing pass (lines 230–243): scale, floor, then add the whole
remainder to the first record with the largest scaled amount.  `none` models
the `TypeError` raised by `finalData[maxIdx]['فروش_نهایی'] += salesDiff` when
`finalData` is empty (the reduce returns index 0 of an empty array). -/
def salesPassAux (targetSales : ℚ) (totals : List ℚ) : Option (List ℚ) :=
  let floored := salesScaled targetSales totals
  let diff := targetSales - floored.sum
  if diff ≠ 0 then
    match floored[argmaxIdx floored]? with
    | some v => some (floored.set (argmaxIdx floored) (v + diff))
    | none => none
  else some floored

/-- `taxableItems` of the tax pass: pairs (tax rate, tax amount) with a
positive rate. -/
def taxableOf (recs : List (ℚ × ℚ)) : List (ℚ × ℚ) :=
  recs.filter fun r => r.1 > 0

/-- `taxRatio`: target over the taxable total, 1 when that total is not
positive. -/
def taxRatio (targetTax : ℚ) (recs : List (ℚ × ℚ)) : ℚ :=
  let totalTax := ((taxableOf recs).map (·.2)).sum
  if totalTax > 0 then targetTax / totalTax else 1

/-- The scaled tax amounts `مالیات_نهایی` before the remainder fix: a floored
ratio for records with a positive rate, exactly 0 otherwise. -/
def taxScaled (targetTax : ℚ) (recs : List (ℚ × ℚ)) : List ℚ :=
  recs.map fun r =>
    if r.1 > 0 then ((⌊r.2 * taxRatio targetTax recs⌋ : ℤ) : ℚ) else 0

/-- The tax balancing pass (lines 246–264).  The remainder is applied only
when it is nonzero AND at least one taxable record exists, but the argmax
searches ALL records, not just the taxable ones. -/
def taxPassAux (targetTax : ℚ) (recs : List (ℚ × ℚ)) : Option (List ℚ) :=
  let scaled := taxScaled targetTax recs
  let diff := targetTax - scaled.sum
  if diff ≠ 0 ∧ taxableOf recs ≠ [] then
    match scaled[argmaxIdx scaled]? with
    | some v => some (scaled.set (argmaxIdx scaled) (v + diff))
    | none => none
  else some scaled

/-- The four input ledgers. -/
structure Ledgers where
  dfOpen : ParsedCSV
  dfPurch : ParsedCSV
  dfRet : ParsedCSV
  dfSales : ParsedCSV

/-- One row of the final report (`reportData`). -/
structure ReportRow where
  code : String
  q_open : ℚ
  q_purch : ℚ
  q_ret : ℚ
  qty : ℚ
  final_sales : ℚ
  final_tax : ℚ
  final_ending : ℚ
deriving DecidableEq, Repr

/-- The universal code list computed inside `processData` for ledgers `L`. -/
def allCodesModel (pf : String → Option ℚ) (L : Ledgers) : List String :=
  allCodesOf
    (groupBySum pf L.dfOpen.data COL_S_CODE (getQtyCol L.dfOpen))
    (groupBySum pf L.dfPurch.data COL_S_CODE (getQtyCol L.dfPurch))
    (groupBySum pf L.dfRet.data COL_S_CODE (getQtyCol L.dfRet))
    L.dfSales.data

/-- `finalData` as built by `processData` before redistribution. -/
def buildFinalData (pf : String → Option ℚ) (L : Ledgers) : List Rec :=
  (allCodesModel pf L).map
    (mkRec
      (groupBySum pf L.dfOpen.data COL_S_CODE (getQtyCol L.dfOpen))
      (groupBySum pf L.dfPurch.data COL_S_CODE (getQtyCol L.dfPurch))
      (groupBySum pf L.dfRet.data COL_S_CODE (getQtyCol L.dfRet))
      (buildSalesAgg pf L.dfSales.data)
      (buildTaxMap pf L.dfSales.data))

/-- Assemble the report rows from the post-redistribution records and the
two passes' outputs; `مانده پایان دوره نهایی` recomputes `available - qty`
from the mutated quantity. -/
def buildReport (fd : List Rec) (finalSales finalTax : List ℚ) : List ReportRow :=
  (fd.zip (finalSales.zip finalTax)).map fun p =>
    { code := p.1.code, q_open := p.1.q_open, q_purch := p.1.q_purch,
      q_ret := p.1.q_ret, qty := p.1.qty, final_sales := p.2.1,
      final_tax := p.2.2, final_ending := p.1.available - p.1.qty }

/-- The whole reconciliation run of `processData` (lines 79–280): aggregate,
merge, redistribute, balance sales then tax, and emit the report.
`none` models the run aborting with a runtime error. -/
def processData (pf : String → Option ℚ) (L : Ledgers) (targetSales targetTax : ℚ) :
    Option (List ReportRow) :=
  match salesPassAux targetSales ((distribute (buildFinalData pf L)).map (·.total)) with
  | none => none
  | some finalSales =>
    match taxPassAux targetTax
        ((distribute (buildFinalData pf L)).map fun r => (r.tax_pct, r.tax)) with
    | none => none
    | some finalTax =>
      some (buildReport (distribute (buildFinalData pf L)) finalSales finalTax)

/-! ### Concrete data used in the closed instances below -/

/-- A concrete numeric parser for closed evaluations: parses a few digit
strings, fails on everything else. -/
def pfW : String → Option ℚ := fun s =>
  if s = "1" then some 1 else if s = "2" then some 2 else if s = "3" then some 3
  else if s = "9" then some 9 else none

/-- Concrete ledgers: empty inventory ledgers, one sales row. -/
def LW : Ledgers :=
  { dfOpen := ⟨[], ["h1", "h2"]⟩, dfPurch := ⟨[], ["h1", "h2"]⟩,
    dfRet := ⟨[], ["h1", "h2"]⟩,
    dfSales := ⟨[[(COL_S_CODE, "A"), (COL_S_QTY, "3"), (COL_S_TOTAL, "2"),
                  (COL_S_TAX_AMT, "1"), (COL_S_TAX_PCT, "9")]],
                [COL_S_CODE, COL_S_QTY, COL_S_TOTAL, COL_S_TAX_AMT, COL_S_TAX_PCT]⟩ }

/-- The report row `processData pfW LW 10 5` produces. -/
def rowW : ReportRow :=
  { code := "A", q_open := 0, q_purch := 0, q_ret := 0, qty := 3,
    final_sales := 10, final_tax := 5, final_ending := -3 }

/-- Concrete ledgers with broken schema: every inventory ledger has a single
column, and the sales ledger has only the product-code column. -/
def LC5 : Ledgers :=
  { dfOpen := ⟨[], ["h"]⟩, dfPurch := ⟨[], ["h"]⟩, dfRet := ⟨[], ["h"]⟩,
    dfSales := ⟨[[(COL_S_CODE, "A")]], [COL_S_CODE]⟩ }

/-- Concrete ledgers with no rows at all (empty universal code set). -/
def LE : Ledgers :=
  { dfOpen := ⟨[], ["h"]⟩, dfPurch := ⟨[], ["h"]⟩, dfRet := ⟨[], ["h"]⟩,
    dfSales := ⟨[], ["h"]⟩ }

/-- A donor record with fractional sold quantity `1/2` and deficit `1/4`. -/
def r3d : Rec :=
  { code := "D", q_open := 0, q_purch := 0, q_ret := 0, available := 1/4,
    qty := 1/2, total := 1, tax := 9/100, tax_pct := 9, ending := -(1/4) }

/-- A recipient record in the same bracket as `r3d`. -/
def r3r : Rec :=
  { code := "R", q_open := 0, q_purch := 0, q_ret := 0, available := 15,
    qty := 10, total := 10, tax := 1, tax_pct := 9, ending := 5 }

/-- A donor record with zero sold quantity but nonzero sales amount and tax. -/
def r7d : Rec :=
  { code := "D", q_open := 0, q_purch := 0, q_ret := 0, available := -5,
    qty := 0, total := 100, tax := 9, tax_pct := 9, ending := -5 }

/-- A recipient record in the same bracket as `r7d`. -/
def r7r : Rec :=
  { code := "R", q_open := 0, q_purch := 0, q_ret := 0, available := 55,
    qty := 50, total := 50, tax := 5, tax_pct := 9, ending := 5 }

/-- A sales row whose product code coerces to the empty string. -/
def rowE : Row := [(COL_S_CODE, "")]

/-- A sales row with code `X` and a quantity cell `pfW` cannot parse. -/
def rowX : Row := [(COL_S_CODE, "X"), (COL_S_QTY, "zz")]

/-- The single record `buildFinalData pfW LW` produces. -/
def recW : Rec :=
  { code := "A", q_open := 0, q_purch := 0, q_ret := 0, available := 0,
    qty := 3, total := 2, tax := 1, tax_pct := 9, ending := -3 }

/-! ### Lemmas about the argmax reduce -/

theorem amFold_spec (ps : List (ℕ × ℚ)) (acc : ℕ × ℚ) :
    (ps.foldl amStep acc = acc ∨ ps.foldl amStep acc ∈ ps) ∧
      acc.2 ≤ (ps.foldl amStep acc).2 ∧ ∀ p ∈ ps, p.2 ≤ (ps.foldl amStep acc).2 := by
  induction ps generalizing acc with
  | nil => simp
  | cons p ps ih =>
    simp only [List.foldl_cons]
    obtain ⟨h1, h2, h3⟩ := ih (amStep acc p)
    have hstep : (amStep acc p = acc ∨ amStep acc p = p) ∧
        acc.2 ≤ (amStep acc p).2 ∧ p.2 ≤ (amStep acc p).2 := by
      unfold amStep
      split
      · exact ⟨Or.inr rfl, le_of_lt (by assumption), le_refl _⟩
      · exact ⟨Or.inl rfl, le_refl _, le_of_not_lt (by assumption)⟩
    refine ⟨?_, ?_, ?_⟩
    · rcases h1 with h | h
      · rcases hstep.1 with h' | h'
        · exact Or.inl (h.trans h')
        · refine Or.inr ?_
          rw [h, h']
          exact List.mem_cons_self _ _
      · exact Or.inr (List.mem_cons_of_mem _ h)
    · exact le_trans hstep.2.1 h2
    · intro q hq
      rcases List.mem_cons.1 hq with rfl | hq
      · exact le_trans hstep.2.2 h2
      · exact h3 q hq

theorem argmax_spec (l : List ℚ) (hl : l ≠ []) :
    ∃ v, l[argmaxIdx l]? = some v ∧ ∀ i (h : i < l.length), l[i] ≤ v := by
  obtain ⟨h1, h2, h3⟩ := amFold_spec l.enum (0, l.headD 0)
  refine ⟨(l.enum.foldl amStep (0, l.headD 0)).2, ?_, ?_⟩
  · unfold argmaxIdx
    rcases h1 with h | h
    · rw [h]
      cases l with
      | nil => simp at hl
      | cons a t => simp
    · exact (List.mem_enum_iff_getElem?).1 h
  · intro i hi
    have hmem : (i, l[i]) ∈ l.enum :=
      (List.mem_enum_iff_getElem?).2 (by simp [hi])
    exact h3 _ hmem

theorem argmaxIdx_lt (l : List ℚ) (hl : l ≠ []) : argmaxIdx l < l.length := by
  obtain ⟨v, hv, -⟩ := argmax_spec l hl
  exact (List.getElem?_eq_some.1 hv).1

/-! ### Lemmas about the balancing passes -/

theorem sum_set_of_getElem? {l : List ℚ} {i : ℕ} {v a : ℚ} (h : l[i]? = some v) :
    (l.set i a).sum = l.sum - v + a := by
  induction l generalizing i with
  | nil => simp at h
  | cons x t ih =>
    cases i with
    | zero =>
      simp only [List.getElem?_cons_zero, Option.some_inj] at h
      subst h
      simp [List.set]
      ring
    | succ n =>
      simp only [List.getElem?_cons_succ] at h
      simp [List.set, ih h]
      ring

theorem salesScaled_length (tS : ℚ) (totals : List ℚ) :
    (salesScaled tS totals).length = totals.length := by
  simp [salesScaled]

theorem salesPassAux_sum {tS : ℚ} {totals out : List ℚ}
    (h : salesPassAux tS totals = some out) : out.sum = tS := by
  unfold salesPassAux at h
  by_cases hd : tS - (salesScaled tS totals).sum = 0
  · rw [if_neg (not_not.mpr hd)] at h
    obtain rfl := Option.some_inj.1 h
    linarith
  · rw [if_pos hd] at h
    cases hv : (salesScaled tS totals)[argmaxIdx (salesScaled tS totals)]? with
    | none => rw [hv] at h; simp at h
    | some v =>
      rw [hv] at h
      obtain rfl := Option.some_inj.1 h
      rw [sum_set_of_getElem? hv]
      ring

theorem salesPassAux_length {tS : ℚ} {totals out : List ℚ}
    (h : salesPassAux tS totals = some out) : out.length = totals.length := by
  unfold salesPassAux at h
  by_cases hd : tS - (salesScaled tS totals).sum ≠ 0
  · rw [if_pos hd] at h
    cases hv : (salesScaled tS totals)[argmaxIdx (salesScaled tS totals)]? with
    | none => rw [hv] at h; simp at h
    | some v =>
      rw [hv] at h
      obtain rfl := Option.some_inj.1 h
      simp [salesScaled]
  · rw [if_neg hd] at h
    obtain rfl := Option.some_inj.1 h
    simp [salesScaled]

theorem salesPassAux_eq_none_iff (tS : ℚ) (totals : List ℚ) :
    salesPassAux tS totals = none ↔ totals = [] ∧ tS ≠ 0 := by
  unfold salesPassAux
  constructor
  · intro h
    by_cases hd : tS - (salesScaled tS totals).sum = 0
    · rw [if_neg (not_not.mpr hd)] at h
      simp at h
    · rw [if_pos hd] at h
      by_cases ht : totals = []
      · refine ⟨ht, ?_⟩
        subst ht
        simpa [salesScaled] using hd
      · exfalso
        have hne : salesScaled tS totals ≠ [] := by
          simpa [salesScaled, List.map_eq_nil_iff] using ht
        obtain ⟨v, hv, -⟩ := argmax_spec _ hne
        rw [hv] at h
        simp at h
  · rintro ⟨rfl, htS⟩
    have hsc : salesScaled tS [] = [] := by simp [salesScaled]
    rw [hsc]
    simp [htS, argmaxIdx]

theorem taxScaled_length (tT : ℚ) (recs : List (ℚ × ℚ)) :
    (taxScaled tT recs).length = recs.length := by
  simp [taxScaled]

theorem taxPassAux_isSome (tT : ℚ) (recs : List (ℚ × ℚ)) :
    ∃ out, taxPassAux tT recs = some out := by
  unfold taxPassAux
  by_cases hc : tT - (taxScaled tT recs).sum ≠ 0 ∧ taxableOf recs ≠ []
  · rw [if_pos hc]
    have hrecs : recs ≠ [] := by
      intro hr
      exact hc.2 (by simp [hr, taxableOf])
    have hne : taxScaled tT recs ≠ [] := by
      simpa [taxScaled, List.map_eq_nil_iff] using hrecs
    obtain ⟨v, hv, -⟩ := argmax_spec _ hne
    rw [hv]
    exact ⟨_, rfl⟩
  · rw [if_neg hc]
    exact ⟨_, rfl⟩

theorem taxPassAux_sum {tT : ℚ} {recs : List (ℚ × ℚ)} {out : List ℚ}
    (h : taxPassAux tT recs = some out) (htax : taxableOf recs ≠ []) :
    out.sum = tT := by
  unfold taxPassAux at h
  by_cases hd : tT - (taxScaled tT recs).sum = 0
  · rw [if_neg (by simp [hd])] at h
    obtain rfl := Option.some_inj.1 h
    linarith
  · rw [if_pos (⟨hd, htax⟩ : tT - (taxScaled tT recs).sum ≠ 0 ∧ taxableOf recs ≠ [])] at h
    cases hv : (taxScaled tT recs)[argmaxIdx (taxScaled tT recs)]? with
    | none => rw [hv] at h; simp at h
    | some v =>
      rw [hv] at h
      obtain rfl := Option.some_inj.1 h
      rw [sum_set_of_getElem? hv]
      ring

theorem taxPassAux_length {tT : ℚ} {recs : List (ℚ × ℚ)} {out : List ℚ}
    (h : taxPassAux tT recs = some out) : out.length = recs.length := by
  unfold taxPassAux at h
  by_cases hc : tT - (taxScaled tT recs).sum ≠ 0 ∧ taxableOf recs ≠ []
  · rw [if_pos hc] at h
    cases hv : (taxScaled tT recs)[argmaxIdx (taxScaled tT recs)]? with
    | none => rw [hv] at h; simp at h
    | some v =>
      rw [hv] at h
      obtain rfl := Option.some_inj.1 h
      simp [taxScaled]
  · rw [if_neg hc] at h
    obtain rfl := Option.some_inj.1 h
    simp [taxScaled]

/-! ### Lemmas about the redistribution engine -/

theorem redistRec_tax_pct (fd : List Rec) (g : ℚ) (r : Rec) :
    (redistRec fd g r).tax_pct = r.tax_pct := by
  unfold redistRec
  repeat' split
  all_goals rfl

theorem redistRec_code (fd : List Rec) (g : ℚ) (r : Rec) :
    (redistRec fd g r).code = r.code := by
  unfold redistRec
  repeat' split
  all_goals rfl

theorem redistRec_available (fd : List Rec) (g : ℚ) (r : Rec) :
    (redistRec fd g r).available = r.available := by
  unfold redistRec
  repeat' split
  all_goals rfl

theorem redistRec_ending (fd : List Rec) (g : ℚ) (r : Rec) :
    (redistRec fd g r).ending = r.ending := by
  unfold redistRec
  repeat' split
  all_goals rfl

theorem redistRec_of_ne (fd : List Rec) (g : ℚ) (r : Rec) (h : r.tax_pct ≠ g) :
    redistRec fd g r = r := by
  unfold redistRec
  rw [if_neg h]

theorem redistRec_donor (fd : List Rec) (g : ℚ) (r : Rec) (h1 : r.tax_pct = g)
    (h2 : r.ending < 0) :
    redistRec fd g r =
      { r with qty := r.qty - moveQtyOf r, total := r.total - moveSalesOf r,
               tax := r.tax - moveTaxOf r } := by
  unfold redistRec
  rw [if_pos h1, if_pos h2]

theorem redistRec_recip (fd : List Rec) (g : ℚ) (r : Rec) (h1 : r.tax_pct = g)
    (h2 : ¬ r.ending < 0) (h3 : r.ending > 0 ∧ r.total > 0) :
    redistRec fd g r =
      { r with qty := r.qty + r.total / totalPosSales fd g * totalMoveQty fd g,
               total := r.total + r.total / totalPosSales fd g * totalMoveSales fd g,
               tax := r.tax + r.total / totalPosSales fd g * totalMoveTax fd g } := by
  unfold redistRec
  rw [if_pos h1, if_neg h2, if_pos h3]

theorem redistRec_other (fd : List Rec) (g : ℚ) (r : Rec)
    (h2 : ¬ r.ending < 0) (h3 : ¬ (r.ending > 0 ∧ r.total > 0)) :
    redistRec fd g r = r := by
  unfold redistRec
  by_cases h1 : r.tax_pct = g
  · rw [if_pos h1, if_neg h2, if_neg h3]
  · rw [if_neg h1]

theorem distributeGroup_map_field {α : Type} (f : Rec → α)
    (hf : ∀ fd g r, f (redistRec fd g r) = f r) (fd : List Rec) (g : ℚ) :
    (distributeGroup fd g).map f = fd.map f := by
  unfold distributeGroup
  split
  · rw [List.map_map]
    exact List.map_congr_left fun r _ => hf fd g r
  · rfl

theorem distribute_map_field {α : Type} (f : Rec → α)
    (hf : ∀ fd g r, f (redistRec fd g r) = f r) (fd : List Rec) :
    (distribute fd).map f = fd.map f := by
  unfold distribute
  suffices h : ∀ (gs : List ℚ) (fd' : List Rec),
      fd'.map f = fd.map f → (gs.foldl distributeGroup fd').map f = fd.map f by
    exact h _ fd rfl
  intro gs
  induction gs with
  | nil => intro fd' h; simpa using h
  | cons g' gs ih =>
    intro fd' h
    simp only [List.foldl_cons]
    exact ih _ (by rw [distributeGroup_map_field f hf fd' g', h])

theorem distribute_map_tax_pct (fd : List Rec) :
    (distribute fd).map (·.tax_pct) = fd.map (·.tax_pct) :=
  distribute_map_field _ redistRec_tax_pct fd

theorem distribute_map_code (fd : List Rec) :
    (distribute fd).map (·.code) = fd.map (·.code) :=
  distribute_map_field _ redistRec_code fd

theorem distribute_length (fd : List Rec) : (distribute fd).length = fd.length := by
  have h := distribute_map_code fd
  have := congrArg List.length h
  simpa using this

theorem bracketOf_distributeGroup_ne (fd : List Rec) (g g' : ℚ) (hg : g ≠ g') :
    bracketOf (distributeGroup fd g') g = bracketOf fd g := by
  unfold distributeGroup
  split
  · unfold bracketOf
    rw [List.filter_map]
    have hp : (fun r : Rec => decide (r.tax_pct = g)) ∘ redistRec fd g' =
        fun r : Rec => decide (r.tax_pct = g) := by
      funext r
      simp [Function.comp, redistRec_tax_pct]
    rw [hp]
    have hid : List.map (redistRec fd g') (List.filter (fun r : Rec => decide (r.tax_pct = g)) fd) =
        List.map id (List.filter (fun r : Rec => decide (r.tax_pct = g)) fd) := by
      refine List.map_congr_left fun r hr => ?_
      have hrg : r.tax_pct = g := by simpa using (List.mem_filter.1 hr).2
      exact redistRec_of_ne fd g' r (by rw [hrg]; exact hg)
    rw [hid, List.map_id]
  · rfl

theorem bracketOf_distributeGroup_self (fd : List Rec) (g : ℚ)
    (hc : donorsOf fd g ≠ [] ∧ recipsOf fd g ≠ []) :
    bracketOf (distributeGroup fd g) g = (bracketOf fd g).map (redistRec fd g) := by
  unfold distributeGroup
  rw [if_pos hc]
  unfold bracketOf
  rw [List.filter_map]
  have hp : (fun r : Rec => decide (r.tax_pct = g)) ∘ redistRec fd g =
      fun r : Rec => decide (r.tax_pct = g) := by
    funext r
    simp [Function.comp, redistRec_tax_pct]
  rw [hp]

theorem recip_mem_pos {fd : List Rec} {g : ℚ} {r : Rec} (hr : r ∈ recipsOf fd g) :
    r.ending > 0 ∧ r.total > 0 := by
  simpa using (List.mem_filter.1 hr).2

theorem donor_mem_neg {fd : List Rec} {g : ℚ} {r : Rec} (hr : r ∈ donorsOf fd g) :
    r.ending < 0 := by
  simpa using (List.mem_filter.1 hr).2

theorem totalPosSales_pos (fd : List Rec) (g : ℚ) (h : recipsOf fd g ≠ []) :
    0 < totalPosSales fd g := by
  unfold totalPosSales
  refine List.sum_pos _ (fun x hx => ?_) (by simpa using h)
  obtain ⟨r, hr, rfl⟩ := List.mem_map.1 hx
  exact (recip_mem_pos hr).2

theorem recip_weighted_sum (fd : List Rec) (g : ℚ) (M : ℚ)
    (h : recipsOf fd g ≠ []) :
    ((recipsOf fd g).map fun r => r.total / totalPosSales fd g * M).sum = M := by
  have hP := totalPosSales_pos fd g h
  have h1 : ((recipsOf fd g).map fun r => r.total / totalPosSales fd g * M).sum =
      ((recipsOf fd g).map fun r => r.total * (M / totalPosSales fd g)).sum := by
    congr 1
    refine List.map_congr_left fun r _ => ?_
    field_simp
  rw [h1]
  have h2 := List.sum_map_mul_right (recipsOf fd g) (·.total) (M / totalPosSales fd g)
  rw [h2]
  unfold totalPosSales at hP ⊢
  field_simp

theorem sum_map_sub {α : Type} (l : List α) (f g : α → ℚ) :
    (l.map fun x => f x - g x).sum = (l.map f).sum - (l.map g).sum := by
  induction l with
  | nil => simp
  | cons x t ih =>
    simp only [List.map_cons, List.sum_cons, ih]
    ring

theorem sum_map_filter_split {α : Type} (l : List α) (p : α → Bool) (f : α → ℚ) :
    (l.map f).sum = ((l.filter p).map f).sum + ((l.filter fun x => !(p x)).map f).sum := by
  induction l with
  | nil => simp
  | cons x t ih =>
    cases hx : p x <;>
      simp only [List.filter_cons, hx, Bool.not_true, Bool.not_false, if_pos, if_neg,
        Bool.false_eq_true, ite_true, ite_false, List.map_cons, List.sum_cons, ih] <;>
      ring

theorem bracket_mem_tax_pct {fd : List Rec} {g : ℚ} {r : Rec}
    (h : r ∈ bracketOf fd g) : r.tax_pct = g := by
  simpa using (List.mem_filter.1 h).2

theorem filter_not_donor_recip (fd : List Rec) (g : ℚ) :
    (((bracketOf fd g).filter fun r => !(decide (r.ending < 0))).filter
        fun r => r.ending > 0 ∧ r.total > 0) = recipsOf fd g := by
  rw [List.filter_filter]
  unfold recipsOf
  refine List.filter_congr fun r _ => ?_
  by_cases h : r.ending > 0 ∧ r.total > 0
  · simp [h, not_lt_of_gt h.1]
  · simp [h]

theorem sum_redist_field (fd : List Rec) (g : ℚ)
    (hcd : donorsOf fd g ≠ []) (hcr : recipsOf fd g ≠ [])
    (f m : Rec → ℚ)
    (hd : ∀ r, r.tax_pct = g → r.ending < 0 →
      f (redistRec fd g r) = f r - m r)
    (hr : ∀ r, r.tax_pct = g → ¬ r.ending < 0 → r.ending > 0 ∧ r.total > 0 →
      f (redistRec fd g r) =
        f r + r.total / totalPosSales fd g * ((donorsOf fd g).map m).sum)
    (ho : ∀ r, ¬ r.ending < 0 → ¬ (r.ending > 0 ∧ r.total > 0) →
      f (redistRec fd g r) = f r) :
    ((bracketOf (distributeGroup fd g) g).map f).sum = ((bracketOf fd g).map f).sum := by
  rw [bracketOf_distributeGroup_self fd g ⟨hcd, hcr⟩, List.map_map]
  have e1 : ((donorsOf fd g).map (f ∘ redistRec fd g)).sum
      = ((donorsOf fd g).map f).sum - ((donorsOf fd g).map m).sum := by
    have hmap : (donorsOf fd g).map (f ∘ redistRec fd g)
        = (donorsOf fd g).map fun r => f r - m r := by
      refine List.map_congr_left fun r hrm => ?_
      have h1 : r.tax_pct = g := bracket_mem_tax_pct (List.mem_of_mem_filter hrm)
      exact hd r h1 (donor_mem_neg hrm)
    rw [hmap, sum_map_sub]
  have e2 : ((recipsOf fd g).map (f ∘ redistRec fd g)).sum
      = ((recipsOf fd g).map f).sum + ((donorsOf fd g).map m).sum := by
    have hmap : (recipsOf fd g).map (f ∘ redistRec fd g)
        = (recipsOf fd g).map fun r =>
            f r + r.total / totalPosSales fd g * ((donorsOf fd g).map m).sum := by
      refine List.map_congr_left fun r hrm => ?_
      have h1 : r.tax_pct = g := bracket_mem_tax_pct (List.mem_of_mem_filter hrm)
      have h3 : r.ending > 0 ∧ r.total > 0 := recip_mem_pos hrm
      exact hr r h1 (not_lt_of_gt h3.1) h3
    rw [hmap, List.sum_map_add]
    rw [recip_weighted_sum fd g _ hcr]
  have e3 :
      ((((bracketOf fd g).filter fun r => !(decide (r.ending < 0))).filter
        fun r => !(decide (r.ending > 0 ∧ r.total > 0))).map (f ∘ redistRec fd g)).sum
      = ((((bracketOf fd g).filter fun r => !(decide (r.ending < 0))).filter
        fun r => !(decide (r.ending > 0 ∧ r.total > 0))).map f).sum := by
    congr 1
    refine List.map_congr_left fun r hrm => ?_
    have hmem := List.mem_filter.1 hrm
    have h2 := hmem.2
    simp only [Bool.not_eq_true', decide_eq_false_iff_not] at h2
    have h1 := (List.mem_filter.1 hmem.1).2
    simp only [Bool.not_eq_true', decide_eq_false_iff_not] at h1
    exact ho r h1 h2
  have split1 := sum_map_filter_split (bracketOf fd g)
    (fun r => decide (r.ending < 0)) (f ∘ redistRec fd g)
  have split2 := sum_map_filter_split (bracketOf fd g)
    (fun r => decide (r.ending < 0)) f
  have split3 := sum_map_filter_split
    ((bracketOf fd g).filter fun r => !(decide (r.ending < 0)))
    (fun r => decide (r.ending > 0 ∧ r.total > 0)) (f ∘ redistRec fd g)
  have split4 := sum_map_filter_split
    ((bracketOf fd g).filter fun r => !(decide (r.ending < 0)))
    (fun r => decide (r.ending > 0 ∧ r.total > 0)) f
  have hdon : (bracketOf fd g).filter (fun r => decide (r.ending < 0)) = donorsOf fd g := rfl
  have hrec : ((bracketOf fd g).filter fun r => !(decide (r.ending < 0))).filter
      (fun r => decide (r.ending > 0 ∧ r.total > 0)) = recipsOf fd g :=
    filter_not_donor_recip fd g
  rw [hdon] at split1 split2
  rw [hrec] at split3 split4
  rw [split1, split2, split3, split4, e1, e2, e3]
  ring

theorem bracketOf_distribute_of_empty (fd : List Rec) (g : ℚ)
    (hyp : donorsOf fd g = [] ∨ recipsOf fd g = []) :
    bracketOf (distribute fd) g = bracketOf fd g := by
  unfold distribute
  suffices h : ∀ (gs : List ℚ) (fd' : List Rec), bracketOf fd' g = bracketOf fd g →
      bracketOf (gs.foldl distributeGroup fd') g = bracketOf fd g by
    exact h _ fd rfl
  intro gs
  induction gs with
  | nil => intro fd' h; simpa using h
  | cons g' gs ih =>
    intro fd' h
    simp only [List.foldl_cons]
    apply ih
    by_cases hg : g = g'
    · subst hg
      have hd : donorsOf fd' g = donorsOf fd g := by unfold donorsOf; rw [h]
      have hr : recipsOf fd' g = recipsOf fd g := by unfold recipsOf; rw [h]
      have hid : distributeGroup fd' g = fd' := by
        unfold distributeGroup
        rw [if_neg]
        rw [hd, hr]
        rcases hyp with he | he <;> simp [he]
      rw [hid, h]
    · rw [bracketOf_distributeGroup_ne fd' g g' hg, h]

/-! ### Lemmas about the aggregator and the code union -/

theorem alAdd_keys_update (m : List (String × ℚ)) (k : String) (v : ℚ)
    (h : (m.find? fun p => p.1 = k).isSome) :
    (alAdd m k v).map (·.1) = m.map (·.1) := by
  unfold alAdd
  rw [if_pos h, List.map_map]
  refine List.map_congr_left fun p _ => ?_
  by_cases hp : p.1 = k <;> simp [hp]

theorem alAdd_keys_insert (m : List (String × ℚ)) (k : String) (v : ℚ)
    (h : ¬ (m.find? fun p => p.1 = k).isSome) :
    (alAdd m k v).map (·.1) = m.map (·.1) ++ [k] := by
  unfold alAdd
  rw [if_neg h]
  simp

theorem mem_alAdd_keys (m : List (String × ℚ)) (k c : String) (v : ℚ) :
    c ∈ (alAdd m k v).map (·.1) ↔ c ∈ m.map (·.1) ∨ c = k := by
  by_cases h : (m.find? fun p => p.1 = k).isSome
  · rw [alAdd_keys_update m k v h]
    constructor
    · exact Or.inl
    · rintro (hc | rfl)
      · exact hc
      · obtain ⟨p, hp, hpk⟩ := List.find?_isSome.1 h
        have : p.1 = c := by simpa using hpk
        exact this ▸ List.mem_map_of_mem _ hp
  · rw [alAdd_keys_insert m k v h]
    simp

theorem mem_groupBySum_keys (pf : String → Option ℚ) (data : List Row) (g : String)
    (s : Option String) (c : String) :
    c ∈ (groupBySum pf data g s).map (·.1) ↔
      c ≠ "" ∧ ∃ row ∈ data, (getCell row (some g)).getD "" = c := by
  unfold groupBySum
  suffices h : ∀ m : List (String × ℚ), c ∈ (data.foldl (gbsStep pf g s) m).map (·.1) ↔
      c ∈ m.map (·.1) ∨ (c ≠ "" ∧ ∃ row ∈ data, (getCell row (some g)).getD "" = c) by
    rw [h []]
    simp
  induction data with
  | nil => intro m; simp
  | cons row rows ih =>
    intro m
    simp only [List.foldl_cons]
    rw [ih]
    unfold gbsStep
    by_cases hk : (getCell row (some g)).getD "" ≠ ""
    · rw [if_pos hk, mem_alAdd_keys]
      constructor
      · rintro ((hc | rfl) | hc)
        · exact Or.inl hc
        · exact Or.inr ⟨hk, row, by simp⟩
        · exact Or.inr ⟨hc.1, hc.2.imp fun r hr => ⟨List.mem_cons_of_mem _ hr.1, hr.2⟩⟩
      · rintro (hc | ⟨hcne, r, hr, hrc⟩)
        · exact Or.inl (Or.inl hc)
        · rcases List.mem_cons.1 hr with rfl | hr
          · exact Or.inl (Or.inr hrc.symm)
          · exact Or.inr ⟨hcne, r, hr, hrc⟩
    · rw [if_neg hk]
      push_neg at hk
      constructor
      · rintro (hc | hc)
        · exact Or.inl hc
        · exact Or.inr ⟨hc.1, hc.2.imp fun r hr => ⟨List.mem_cons_of_mem _ hr.1, hr.2⟩⟩
      · rintro (hc | ⟨hcne, r, hr, hrc⟩)
        · exact Or.inl hc
        · rcases List.mem_cons.1 hr with rfl | hr
          · exact absurd (hk ▸ hrc) hcne.symm
          · exact Or.inr ⟨hcne, r, hr, hrc⟩

theorem groupBySum_empty_key (pf : String → Option ℚ) (data : List Row) (g : String)
    (s : Option String) :
    alGet (groupBySum pf data g s) "" = none := by
  unfold alGet
  have h : (groupBySum pf data g s).find? (fun p => p.1 = "") = none := by
    rw [List.find?_eq_none]
    intro p hp
    have hmem : p.1 ∈ (groupBySum pf data g s).map (·.1) := List.mem_map_of_mem _ hp
    intro hpe
    have : (p.1 : String) ≠ "" := ((mem_groupBySum_keys pf data g s p.1).1 hmem).1
    exact this (by simpa using hpe)
  rw [h]
  rfl

theorem dedupL_fold_nodup {α : Type} [DecidableEq α] (l : List α) (acc : List α)
    (hacc : acc.Nodup) :
    (l.foldl (fun acc c => if c ∈ acc then acc else acc ++ [c]) acc).Nodup := by
  induction l generalizing acc with
  | nil => simpa using hacc
  | cons x t ih =>
    simp only [List.foldl_cons]
    by_cases hx : x ∈ acc
    · rw [if_pos hx]
      exact ih acc hacc
    · rw [if_neg hx]
      refine ih _ ?_
      simpa [List.nodup_append, hx] using hacc

theorem dedupL_nodup {α : Type} [DecidableEq α] (l : List α) : (dedupL l).Nodup :=
  dedupL_fold_nodup l [] List.nodup_nil

theorem mem_dedupL {α : Type} [DecidableEq α] (l : List α) (c : α) :
    c ∈ dedupL l ↔ c ∈ l := by
  unfold dedupL
  suffices h : ∀ acc : List α,
      c ∈ l.foldl (fun acc c => if c ∈ acc then acc else acc ++ [c]) acc ↔
        c ∈ acc ∨ c ∈ l by
    rw [h []]
    simp
  induction l with
  | nil => intro acc; simp
  | cons x t ih =>
    intro acc
    simp only [List.foldl_cons]
    by_cases hx : x ∈ acc
    · rw [if_pos hx, ih]
      constructor
      · rintro (hc | hc)
        · exact Or.inl hc
        · exact Or.inr (List.mem_cons_of_mem _ hc)
      · rintro (hc | hc)
        · exact Or.inl hc
        · rcases List.mem_cons.1 hc with rfl | hc
          · exact Or.inl hx
          · exact Or.inr hc
    · rw [if_neg hx, ih]
      constructor
      · rintro (hc | hc)
        · rcases List.mem_append.1 hc with hc | hc
          · exact Or.inl hc
          · have hcx : c = x := by simpa using hc
            exact Or.inr (hcx ▸ List.mem_cons_self x t)
        · exact Or.inr (List.mem_cons_of_mem _ hc)
      · rintro (hc | hc)
        · exact Or.inl (List.mem_append.2 (Or.inl hc))
        · rcases List.mem_cons.1 hc with rfl | hc
          · exact Or.inl (List.mem_append.2 (Or.inr (by simp)))
          · exact Or.inr hc

theorem mem_salesCodes (rows : List Row) (c : String) :
    c ∈ salesCodes rows ↔
      c ≠ "" ∧ ∃ row ∈ rows, (getCell row (some COL_S_CODE)).getD "" = c := by
  unfold salesCodes
  rw [List.mem_filter]
  constructor
  · rintro ⟨hmem, hne⟩
    obtain ⟨row, hrow, hcell⟩ := List.mem_filterMap.1 hmem
    exact ⟨by simpa using hne, row, hrow, by simp [hcell]⟩
  · rintro ⟨hne, row, hrow, hcell⟩
    cases hc : getCell row (some COL_S_CODE) with
    | none => rw [hc] at hcell; exact absurd hcell.symm hne
    | some d =>
      rw [hc] at hcell
      simp only [Option.getD_some] at hcell
      subst hcell
      exact ⟨List.mem_filterMap.2 ⟨row, hrow, hc⟩, by simpa using hne⟩

theorem allCodesModel_nodup (pf : String → Option ℚ) (L : Ledgers) :
    (allCodesModel pf L).Nodup :=
  dedupL_nodup _

theorem mem_allCodesModel (pf : String → Option ℚ) (L : Ledgers) (c : String) :
    c ∈ allCodesModel pf L ↔ c ≠ "" ∧
      ((∃ row ∈ L.dfOpen.data, (getCell row (some COL_S_CODE)).getD "" = c) ∨
       (∃ row ∈ L.dfPurch.data, (getCell row (some COL_S_CODE)).getD "" = c) ∨
       (∃ row ∈ L.dfRet.data, (getCell row (some COL_S_CODE)).getD "" = c) ∨
       (∃ row ∈ L.dfSales.data, (getCell row (some COL_S_CODE)).getD "" = c)) := by
  unfold allCodesModel allCodesOf
  rw [mem_dedupL]
  simp only [List.mem_append]
  rw [mem_groupBySum_keys, mem_groupBySum_keys, mem_groupBySum_keys, mem_salesCodes]
  constructor
  · rintro (((⟨h, p⟩ | ⟨h, p⟩) | ⟨h, p⟩) | ⟨h, p⟩)
    · exact ⟨h, Or.inl p⟩
    · exact ⟨h, Or.inr (Or.inl p)⟩
    · exact ⟨h, Or.inr (Or.inr (Or.inl p))⟩
    · exact ⟨h, Or.inr (Or.inr (Or.inr p))⟩
  · rintro ⟨h, (p | p | p | p)⟩
    · exact Or.inl (Or.inl (Or.inl ⟨h, p⟩))
    · exact Or.inl (Or.inl (Or.inr ⟨h, p⟩))
    · exact Or.inl (Or.inr ⟨h, p⟩)
    · exact Or.inr ⟨h, p⟩

/-! ### Lemmas about report assembly and the whole run -/

theorem buildReport_proj (fd : List Rec) (fs ft : List ℚ)
    (h1 : fs.length = fd.length) (h2 : ft.length = fd.length) :
    (buildReport fd fs ft).map (·.code) = fd.map (·.code) ∧
    (buildReport fd fs ft).map (·.final_sales) = fs ∧
    (buildReport fd fs ft).map (·.final_tax) = ft := by
  induction fd generalizing fs ft with
  | nil =>
    cases fs with
    | nil =>
      cases ft with
      | nil => simp [buildReport]
      | cons b t => simp at h2
    | cons a t => simp at h1
  | cons r fd ih =>
    cases fs with
    | nil => simp at h1
    | cons a fs' =>
      cases ft with
      | nil => simp at h2
      | cons b ft' =>
        have h1' : fs'.length = fd.length := by simpa using h1
        have h2' : ft'.length = fd.length := by simpa using h2
        obtain ⟨e1, e2, e3⟩ := ih fs' ft' h1' h2'
        unfold buildReport at e1 e2 e3 ⊢
        simp only [List.zip_cons_cons, List.map_cons]
        exact ⟨by rw [e1], by rw [e2], by rw [e3]⟩

theorem distribute_eq_nil_iff (fd : List Rec) : distribute fd = [] ↔ fd = [] := by
  constructor
  · intro h
    have hlen := distribute_length fd
    rw [h] at hlen
    exact List.length_eq_zero.1 hlen.symm
  · intro h
    subst h
    rfl

theorem processData_eq_buildReport {pf : String → Option ℚ} {L : Ledgers}
    {tS tT : ℚ} {fs ft : List ℚ}
    (h1 : salesPassAux tS ((distribute (buildFinalData pf L)).map (·.total)) = some fs)
    (h2 : taxPassAux tT
      ((distribute (buildFinalData pf L)).map fun r => (r.tax_pct, r.tax)) = some ft) :
    processData pf L tS tT = some (buildReport (distribute (buildFinalData pf L)) fs ft) := by
  unfold processData
  rw [h1, h2]

theorem processData_eq_none_iff (pf : String → Option ℚ) (L : Ledgers) (tS tT : ℚ) :
    processData pf L tS tT = none ↔ buildFinalData pf L = [] ∧ tS ≠ 0 := by
  constructor
  · intro h
    cases hfs : salesPassAux tS ((distribute (buildFinalData pf L)).map (·.total)) with
    | none =>
      have := (salesPassAux_eq_none_iff _ _).1 hfs
      refine ⟨?_, this.2⟩
      have hmap : (distribute (buildFinalData pf L)).map (·.total) = [] := this.1
      have : distribute (buildFinalData pf L) = [] := by
        simpa [List.map_eq_nil_iff] using hmap
      exact (distribute_eq_nil_iff _).1 this
    | some fs =>
      obtain ⟨ft, hft⟩ := taxPassAux_isSome tT
        ((distribute (buildFinalData pf L)).map fun r => (r.tax_pct, r.tax))
      rw [processData_eq_buildReport hfs hft] at h
      simp at h
  · rintro ⟨hnil, htS⟩
    unfold processData
    have hfs : salesPassAux tS ((distribute (buildFinalData pf L)).map (·.total)) = none := by
      rw [(salesPassAux_eq_none_iff _ _)]
      refine ⟨?_, htS⟩
      rw [(distribute_eq_nil_iff _).2 hnil]
      rfl
    rw [hfs]

theorem processData_some_inv {pf : String → Option ℚ} {L : Ledgers} {tS tT : ℚ}
    {rep : List ReportRow} (h : processData pf L tS tT = some rep) :
    ∃ fs ft, salesPassAux tS ((distribute (buildFinalData pf L)).map (·.total)) = some fs ∧
      taxPassAux tT ((distribute (buildFinalData pf L)).map fun r => (r.tax_pct, r.tax))
        = some ft ∧
      rep = buildReport (distribute (buildFinalData pf L)) fs ft := by
  cases hfs : salesPassAux tS ((distribute (buildFinalData pf L)).map (·.total)) with
  | none =>
    unfold processData at h
    rw [hfs] at h
    simp at h
  | some fs =>
    cases hft : taxPassAux tT
        ((distribute (buildFinalData pf L)).map fun r => (r.tax_pct, r.tax)) with
    | none =>
      unfold processData at h
      rw [hfs, hft] at h
      simp at h
    | some ft =>
      refine ⟨fs, ft, rfl, rfl, ?_⟩
      rw [processData_eq_buildReport hfs hft] at h
      exact (Option.some_inj.1 h).symm

theorem mkRec_code (openSum purchSum retSum : List (String × ℚ))
    (salesAgg : List (String × SAgg)) (taxMap : List (String × ℚ)) (c : String) :
    (mkRec openSum purchSum retSum salesAgg taxMap c).code = c := rfl

theorem buildFinalData_map_code (pf : String → Option ℚ) (L : Ledgers) :
    (buildFinalData pf L).map (·.code) = allCodesModel pf L := by
  unfold buildFinalData
  rw [List.map_map]
  have h : ((fun r : Rec => r.code) ∘ mkRec
      (groupBySum pf L.dfOpen.data COL_S_CODE (getQtyCol L.dfOpen))
      (groupBySum pf L.dfPurch.data COL_S_CODE (getQtyCol L.dfPurch))
      (groupBySum pf L.dfRet.data COL_S_CODE (getQtyCol L.dfRet))
      (buildSalesAgg pf L.dfSales.data)
      (buildTaxMap pf L.dfSales.data)) = id := by
    funext c
    simp [Function.comp, mkRec_code]
  rw [h, List.map_id]

/-! ### The claims -/

/-- C1: after both balancing passes, the balanced sales amounts over all
records sum to `targetSalesAmount` and the balanced tax amounts over all
records sum to `targetTaxAmount`, for every input whose total
post-redistribution sales amount is positive and in which at least one
record has a positive tax rate. -/
theorem C1_exact_target_hit (pf : String → Option ℚ) (L : Ledgers) (tS tT : ℚ)
    (hs : 0 < ((distribute (buildFinalData pf L)).map (·.total)).sum)
    (ht : ∃ r ∈ distribute (buildFinalData pf L), 0 < r.tax_pct) :
    ∃ rep, processData pf L tS tT = some rep ∧
      (rep.map (·.final_sales)).sum = tS ∧ (rep.map (·.final_tax)).sum = tT := by
  cases hfs : salesPassAux tS ((distribute (buildFinalData pf L)).map (·.total)) with
  | none =>
    obtain ⟨h1, -⟩ := (salesPassAux_eq_none_iff _ _).1 hfs
    rw [h1] at hs
    simp at hs
  | some fs =>
    obtain ⟨ft, hft⟩ := taxPassAux_isSome tT
      ((distribute (buildFinalData pf L)).map fun r => (r.tax_pct, r.tax))
    refine ⟨buildReport (distribute (buildFinalData pf L)) fs ft,
      processData_eq_buildReport hfs hft, ?_, ?_⟩
    · have hlen : fs.length = (distribute (buildFinalData pf L)).length := by
        simpa using salesPassAux_length hfs
      have hlent : ft.length = (distribute (buildFinalData pf L)).length := by
        simpa using taxPassAux_length hft
      obtain ⟨-, e2, -⟩ := buildReport_proj _ fs ft hlen hlent
      rw [e2]
      exact salesPassAux_sum hfs
    · have hlen : fs.length = (distribute (buildFinalData pf L)).length := by
        simpa using salesPassAux_length hfs
      have hlent : ft.length = (distribute (buildFinalData pf L)).length := by
        simpa using taxPassAux_length hft
      obtain ⟨-, -, e3⟩ := buildReport_proj _ fs ft hlen hlent
      rw [e3]
      refine taxPassAux_sum hft ?_
      obtain ⟨r, hr, hrp⟩ := ht
      intro hni
      have hmem : (r.tax_pct, r.tax) ∈
          taxableOf ((distribute (buildFinalData pf L)).map fun r => (r.tax_pct, r.tax)) := by
        unfold taxableOf
        exact List.mem_filter.2 ⟨List.mem_map_of_mem _ hr, by simpa using hrp⟩
      rw [hni] at hmem
      simp at hmem

/-- Closed instance of C1 on a concrete run. -/
theorem C1_exact_target_hit_witness :
    ∃ rep, processData pfW LW 10 5 = some rep ∧
      (rep.map (·.final_sales)).sum = 10 ∧ (rep.map (·.final_tax)).sum = 5 :=
  C1_exact_target_hit pfW LW 10 5
    (by simp +decide [buildFinalData, allCodesModel, allCodesOf, groupBySum, dedupL,
      salesCodes, getCell, mkRec, buildSalesAgg, buildTaxMap, saStep, tmStep, alGet,
      parseNum, pfW, LW, COL_S_CODE, COL_S_QTY, COL_S_TAX_PCT, COL_S_TOTAL, COL_S_TAX_AMT,
      getQtyCol, qtyCandidates, gbsStep, alAdd, distribute, taxGroupsOf, distributeGroup,
      donorsOf, recipsOf, bracketOf, redistRec, List.find?, List.findSome?, List.filterMap])
    (by
      refine ⟨recW, ?_, by norm_num [recW]⟩
      simp +decide [recW, buildFinalData, allCodesModel, allCodesOf, groupBySum, dedupL,
        salesCodes, getCell, mkRec, buildSalesAgg, buildTaxMap, saStep, tmStep, alGet,
        parseNum, pfW, LW, COL_S_CODE, COL_S_QTY, COL_S_TAX_PCT, COL_S_TOTAL, COL_S_TAX_AMT,
        getQtyCol, qtyCandidates, gbsStep, alAdd, distribute, taxGroupsOf, distributeGroup,
        donorsOf, recipsOf, bracketOf, redistRec, List.find?, List.findSome?, List.filterMap])

/-- C2: within every redistributed tax bracket, the totals of quantity,
sales amount and tax subtracted from the donors equal the totals added
across the recipients, and the bracket-wide sums of quantity, sales
amount and tax are unchanged by `distributeGroup`. -/
theorem C2_bracket_conservation (fd : List Rec) (g : ℚ)
    (hcd : donorsOf fd g ≠ []) (hcr : recipsOf fd g ≠ []) :
    ((recipsOf fd g).map fun r =>
        r.total / totalPosSales fd g * totalMoveQty fd g).sum = totalMoveQty fd g ∧
    ((recipsOf fd g).map fun r =>
        r.total / totalPosSales fd g * totalMoveSales fd g).sum = totalMoveSales fd g ∧
    ((recipsOf fd g).map fun r =>
        r.total / totalPosSales fd g * totalMoveTax fd g).sum = totalMoveTax fd g ∧
    ((bracketOf (distributeGroup fd g) g).map (·.qty)).sum
        = ((bracketOf fd g).map (·.qty)).sum ∧
    ((bracketOf (distributeGroup fd g) g).map (·.total)).sum
        = ((bracketOf fd g).map (·.total)).sum ∧
    ((bracketOf (distributeGroup fd g) g).map (·.tax)).sum
        = ((bracketOf fd g).map (·.tax)).sum := by
  refine ⟨recip_weighted_sum fd g _ hcr, recip_weighted_sum fd g _ hcr,
    recip_weighted_sum fd g _ hcr, ?_, ?_, ?_⟩
  · refine sum_redist_field fd g hcd hcr (·.qty) moveQtyOf
      (fun r h1 h2 => by rw [redistRec_donor fd g r h1 h2])
      (fun r h1 h2 h3 => by rw [redistRec_recip fd g r h1 h2 h3]; rfl)
      (fun r h2 h3 => by rw [redistRec_other fd g r h2 h3])
  · refine sum_redist_field fd g hcd hcr (·.total) moveSalesOf
      (fun r h1 h2 => by rw [redistRec_donor fd g r h1 h2])
      (fun r h1 h2 h3 => by rw [redistRec_recip fd g r h1 h2 h3]; rfl)
      (fun r h2 h3 => by rw [redistRec_other fd g r h2 h3])
  · refine sum_redist_field fd g hcd hcr (·.tax) moveTaxOf
      (fun r h1 h2 => by rw [redistRec_donor fd g r h1 h2])
      (fun r h1 h2 h3 => by rw [redistRec_recip fd g r h1 h2 h3]; rfl)
      (fun r h2 h3 => by rw [redistRec_other fd g r h2 h3])

/-- Closed instance of C2 on a concrete bracket. -/
theorem C2_bracket_conservation_witness :
    ((bracketOf (distributeGroup [r3d, r3r] 9) 9).map (·.total)).sum
      = ((bracketOf [r3d, r3r] 9).map (·.total)).sum :=
  (C2_bracket_conservation [r3d, r3r] 9
    (by simp [donorsOf, bracketOf, r3d, r3r])
    (by simp [recipsOf, bracketOf, r3d, r3r])).2.2.2.2.1

/-- C3 fails on the code: for the donor `r3d` with sold quantity `1/2` the
engine moves the fraction `1/2` of its sales amount (the denominator is the
truthiness guard `qty || 1`, i.e. `1/2` itself), while the claimed formula
`min(1, |ending| / max(quantity, 1))` predicts the fraction `1/4`. -/
theorem C3_counterexample :
    ((distributeGroup [r3d, r3r] 9).map (·.total))[0]? = some (1/2) ∧
    r3d.total - r3d.total * min 1 (|r3d.ending| / max r3d.qty 1) = 3/4 ∧
    ((1:ℚ)/2) ≠ 3/4 := by
  refine ⟨?_, ?_, by norm_num⟩
  · norm_num [distributeGroup, donorsOf, recipsOf, bracketOf, redistRec,
      moveQtyOf, moveSalesOf, moveTaxOf, deficitRatio, totalPosSales,
      totalMoveQty, totalMoveSales, totalMoveTax, r3d, r3r, min_def, abs]
  · norm_num [r3d, min_def, max_def, abs]

/-- C3 amended: the fraction of a donor's quantity, sales amount and tax
moved away is `min(1, |ending| / d)` where the denominator `d` is the
truthiness guard `qty || 1` — `1` exactly when `qty = 0`, otherwise `qty`
itself; this coincides with the claimed `max(quantity, 1)` whenever the
quantity is zero or at least one, but not for fractional quantities. -/
theorem C3_deficit_ratio_amended (fd : List Rec) (g : ℚ) (i : ℕ) (r : Rec)
    (hi : fd[i]? = some r) (hg : r.tax_pct = g) (hneg : r.ending < 0)
    (hcd : donorsOf fd g ≠ []) (hcr : recipsOf fd g ≠ []) :
    (distributeGroup fd g)[i]? = some
      { r with
        qty := r.qty - r.qty * min 1 (|r.ending| / (if r.qty = 0 then 1 else r.qty)),
        total := r.total - r.total * min 1 (|r.ending| / (if r.qty = 0 then 1 else r.qty)),
        tax := r.tax - r.tax * min 1 (|r.ending| / (if r.qty = 0 then 1 else r.qty)) } ∧
    ((r.qty = 0 ∨ 1 ≤ r.qty) →
      deficitRatio r = min 1 (|r.ending| / max r.qty 1)) := by
  constructor
  · unfold distributeGroup
    rw [if_pos ⟨hcd, hcr⟩, List.getElem?_map, hi, Option.map_some']
    rw [redistRec_donor fd g r hg hneg]
    unfold moveQtyOf moveSalesOf moveTaxOf deficitRatio
    rfl
  · rintro (hq | hq)
    · unfold deficitRatio
      rw [if_pos hq, hq, max_eq_right (by norm_num : (0:ℚ) ≤ 1)]
    · unfold deficitRatio
      rw [if_neg (by linarith), max_eq_left hq]

/-- Closed instance of the amended C3 on a concrete bracket (a donor with
zero quantity, where the truthiness guard and `max(quantity,1)` agree). -/
theorem C3_deficit_ratio_amended_witness :
    (distributeGroup [r7d, r7r] 9)[0]? = some
      { r7d with
        qty := r7d.qty - r7d.qty *
          min 1 (|r7d.ending| / (if r7d.qty = 0 then 1 else r7d.qty)),
        total := r7d.total - r7d.total *
          min 1 (|r7d.ending| / (if r7d.qty = 0 then 1 else r7d.qty)),
        tax := r7d.tax - r7d.tax *
          min 1 (|r7d.ending| / (if r7d.qty = 0 then 1 else r7d.qty)) } ∧
    deficitRatio r7d = min 1 (|r7d.ending| / max r7d.qty 1) := by
  have h := C3_deficit_ratio_amended [r7d, r7r] 9 0 r7d rfl rfl
    (by norm_num [r7d]) (by simp [donorsOf, bracketOf, r7d, r7r])
    (by simp [recipsOf, bracketOf, r7d, r7r])
  exact ⟨h.1, h.2 (Or.inl rfl)⟩

/-- C4 fails on the code: with one zero-rate record holding tax 5 and one
taxable record holding tax 0, and target tax 7, the remainder correction's
argmax ranges over ALL records and lands on the zero-rate record (index 0),
which ends with balanced tax 7, not 0. -/
theorem C4_counterexample :
    taxPassAux 7 [((0:ℚ), 5), (9, 0)] = some [7, 0] ∧ (7:ℚ) ≠ 0 := by
  refine ⟨?_, by norm_num⟩
  simp only [taxPassAux, taxScaled, taxRatio, taxableOf, argmaxIdx, amStep,
    List.enum, List.enumFrom, List.foldl, List.headD, List.map, List.filter]
  norm_num

/-- C4 amended: in the tax pass every record with a non-positive tax rate
gets a scaled tax of exactly 0 (never a floored ratio), and it also ends
with balanced tax 0 provided some taxable record has a positive floored
scaled tax (only then is the argmax of the remainder correction guaranteed
to land on a taxable record); the correction is applied only when the
remainder is nonzero and at least one taxable record exists. -/
theorem C4_zero_rate_amended (tT : ℚ) (recs : List (ℚ × ℚ)) (out : List ℚ)
    (h : taxPassAux tT recs = some out)
    (hpos : ∃ (j : ℕ) (pr : ℚ × ℚ), recs[j]? = some pr ∧ pr.1 > 0 ∧
      (0:ℚ) < ((⌊pr.2 * taxRatio tT recs⌋ : ℤ) : ℚ)) :
    ∀ (i : ℕ) (pr : ℚ × ℚ), recs[i]? = some pr → pr.1 ≤ 0 →
      (taxScaled tT recs)[i]? = some 0 ∧ out[i]? = some 0 := by
  intro i pr hi hle
  have hsc : (taxScaled tT recs)[i]? = some 0 := by
    unfold taxScaled
    rw [List.getElem?_map, hi, Option.map_some']
    rw [if_neg (by linarith)]
  refine ⟨hsc, ?_⟩
  obtain ⟨j, prj, hj, hjp, hjs⟩ := hpos
  have hscj : (taxScaled tT recs)[j]? = some ((⌊prj.2 * taxRatio tT recs⌋ : ℤ) : ℚ) := by
    unfold taxScaled
    rw [List.getElem?_map, hj, Option.map_some', if_pos hjp]
  have hne : taxScaled tT recs ≠ [] := by
    intro hnil
    rw [hnil] at hscj
    simp at hscj
  obtain ⟨v, hv, hmax⟩ := argmax_spec (taxScaled tT recs) hne
  have hjlt : j < (taxScaled tT recs).length := (List.getElem?_eq_some.1 hscj).1
  have hvge : ((⌊prj.2 * taxRatio tT recs⌋ : ℤ) : ℚ) ≤ v := by
    have := hmax j hjlt
    rw [(List.getElem?_eq_some.1 hscj).2] at this
    exact this
  have hvpos : (0:ℚ) < v := lt_of_lt_of_le hjs hvge
  have hine : i ≠ argmaxIdx (taxScaled tT recs) := by
    intro heq
    rw [← heq] at hv
    rw [hsc] at hv
    obtain rfl := Option.some_inj.1 hv
    exact absurd hvpos (by norm_num)
  unfold taxPassAux at h
  by_cases hc : tT - (taxScaled tT recs).sum ≠ 0 ∧ taxableOf recs ≠ []
  · rw [if_pos hc] at h
    cases hvm : (taxScaled tT recs)[argmaxIdx (taxScaled tT recs)]? with
    | none => rw [hvm] at h; simp at h
    | some w =>
      rw [hvm] at h
      obtain rfl := Option.some_inj.1 h
      rw [List.getElem?_set_ne (fun hne' => hine hne'.symm)]
      exact hsc
  · rw [if_neg hc] at h
    obtain rfl := Option.some_inj.1 h
    exact hsc

/-- Closed instance of the amended C4: target 5, a zero-rate record and a
taxable record with positive scaled tax; the zero-rate record ends at 0. -/
theorem C4_zero_rate_amended_witness :
    (taxScaled 5 [((0:ℚ), 3), (9, 2)])[0]? = some 0 ∧
    ((some [0, 5] : Option (List ℚ)).getD [])[0]? = some 0 := by
  have hpass : taxPassAux 5 [((0:ℚ), 3), (9, 2)] = some [0, 5] := by
    simp only [taxPassAux, taxScaled, taxRatio, taxableOf, argmaxIdx, amStep,
      List.enum, List.enumFrom, List.foldl, List.headD, List.map, List.filter]
    norm_num
  have h := C4_zero_rate_amended 5 [((0:ℚ), 3), (9, 2)] [0, 5] hpass
    ⟨1, (9, 2), rfl, by norm_num, by norm_num [taxRatio, taxableOf, List.filter]⟩
    0 (0, 3) rfl (by norm_num)
  exact ⟨h.1, by simp only [Option.getD_some]; exact h.2⟩

/-- C5 fails on the code: with every inventory ledger having a single
column and the sales ledger missing every required column except the
product code, the run does not fail with a schema error — it still
produces a report (all missing cells read as zero). -/
theorem C5_counterexample :
    processData pfW LC5 0 0 = some
      [{ code := "A", q_open := 0, q_purch := 0, q_ret := 0, qty := 0,
         final_sales := 0, final_tax := 0, final_ending := 0 }] := by
  have hfd : distribute (buildFinalData pfW LC5) =
      [{ code := "A", q_open := 0, q_purch := 0, q_ret := 0, available := 0,
         qty := 0, total := 0, tax := 0, tax_pct := 0, ending := 0 }] := by
    simp +decide [buildFinalData, allCodesModel, allCodesOf, groupBySum, dedupL,
      salesCodes, getCell, mkRec, buildSalesAgg, buildTaxMap, saStep, tmStep, alGet,
      parseNum, pfW, LC5, COL_S_CODE, COL_S_QTY, COL_S_TAX_PCT, COL_S_TOTAL,
      COL_S_TAX_AMT, getQtyCol, qtyCandidates, trimStr, gbsStep, alAdd, distribute,
      taxGroupsOf, distributeGroup, donorsOf, recipsOf, bracketOf, redistRec,
      List.find?, List.findSome?, List.filterMap]
  unfold processData
  rw [hfd]
  norm_num [salesPassAux, salesScaled, salesRatio, taxPassAux, taxScaled, taxRatio,
    taxableOf, argmaxIdx, amStep, buildReport, List.filter]

/-- C5 amended: the code has no schema validation at all — an absent
required sales column or an inventory ledger with fewer than two columns
never aborts the run (the missing cells read as zero and a report is still
produced); the only way the run fails is an empty universal code set
together with a nonzero sales target. -/
theorem C5_no_schema_error_amended (pf : String → Option ℚ) (L : Ledgers) (tS tT : ℚ) :
    processData pf L tS tT = none ↔ allCodesModel pf L = [] ∧ tS ≠ 0 := by
  rw [processData_eq_none_iff]
  constructor
  · rintro ⟨h1, h2⟩
    refine ⟨?_, h2⟩
    unfold buildFinalData at h1
    exact List.map_eq_nil_iff.1 h1
  · rintro ⟨h1, h2⟩
    refine ⟨?_, h2⟩
    unfold buildFinalData
    rw [h1]
    rfl

/-- Closed instance of the amended C5: the broken-schema ledgers do not
make the run fail (their code set is nonempty). -/
theorem C5_no_schema_error_amended_witness :
    processData pfW LC5 0 0 ≠ none := by
  intro h
  obtain ⟨-, h2⟩ := (C5_no_schema_error_amended pfW LC5 0 0).mp h
  exact h2 rfl

/-- C6: the report has exactly one row per distinct code, and its code set
is the union of the non-empty codes of the four input ledgers. -/
theorem C6_report_codes_union (pf : String → Option ℚ) (L : Ledgers) (tS tT : ℚ)
    (rep : List ReportRow) (h : processData pf L tS tT = some rep) :
    (rep.map (·.code)).Nodup ∧
    ∀ c : String, c ∈ rep.map (·.code) ↔ c ≠ "" ∧
      ((∃ row ∈ L.dfOpen.data, (getCell row (some COL_S_CODE)).getD "" = c) ∨
       (∃ row ∈ L.dfPurch.data, (getCell row (some COL_S_CODE)).getD "" = c) ∨
       (∃ row ∈ L.dfRet.data, (getCell row (some COL_S_CODE)).getD "" = c) ∨
       (∃ row ∈ L.dfSales.data, (getCell row (some COL_S_CODE)).getD "" = c)) := by
  obtain ⟨fs, ft, hfs, hft, rfl⟩ := processData_some_inv h
  have hlen : fs.length = (distribute (buildFinalData pf L)).length := by
    simpa using salesPassAux_length hfs
  have hlent : ft.length = (distribute (buildFinalData pf L)).length := by
    simpa using taxPassAux_length hft
  obtain ⟨e1, -, -⟩ := buildReport_proj _ fs ft hlen hlent
  rw [e1, distribute_map_code, buildFinalData_map_code]
  exact ⟨allCodesModel_nodup pf L, fun c => mem_allCodesModel pf L c⟩

/-- Closed instance of C6 on a concrete run. -/
theorem C6_report_codes_union_witness :
    ([rowW].map (·.code)).Nodup ∧
    ("A" ∈ [rowW].map (·.code) ↔ "A" ≠ "" ∧
      ((∃ row ∈ LW.dfOpen.data, (getCell row (some COL_S_CODE)).getD "" = "A") ∨
       (∃ row ∈ LW.dfPurch.data, (getCell row (some COL_S_CODE)).getD "" = "A") ∨
       (∃ row ∈ LW.dfRet.data, (getCell row (some COL_S_CODE)).getD "" = "A") ∨
       (∃ row ∈ LW.dfSales.data, (getCell row (some COL_S_CODE)).getD "" = "A"))) := by
  have hfd : distribute (buildFinalData pfW LW) = [recW] := by
    simp +decide [recW, buildFinalData, allCodesModel, allCodesOf, groupBySum, dedupL,
      salesCodes, getCell, mkRec, buildSalesAgg, buildTaxMap, saStep, tmStep, alGet,
      parseNum, pfW, LW, COL_S_CODE, COL_S_QTY, COL_S_TAX_PCT, COL_S_TOTAL, COL_S_TAX_AMT,
      getQtyCol, qtyCandidates, trimStr, gbsStep, alAdd, distribute, taxGroupsOf,
      distributeGroup, donorsOf, recipsOf, bracketOf, redistRec,
      List.find?, List.findSome?, List.filterMap]
  have h : processData pfW LW 10 5 = some [rowW] := by
    unfold processData
    rw [hfd]
    norm_num [salesPassAux, salesScaled, salesRatio, taxPassAux, taxScaled, taxRatio,
      taxableOf, argmaxIdx, amStep, buildReport, recW, rowW, List.filter]
  have hc := C6_report_codes_union pfW LW 10 5 [rowW] h
  exact ⟨hc.1, hc.2 "A"⟩

/-- C7 fails on the code: the zero-quantity donor `r7d` has its sales
amount moved away entirely (its quantity alone is unchanged) — the record
does not stay untouched. -/
theorem C7_counterexample :
    ((distributeGroup [r7d, r7r] 9).map (·.total))[0]? = some 0 ∧ (0:ℚ) ≠ r7d.total := by
  constructor
  · norm_num [distributeGroup, donorsOf, recipsOf, bracketOf, redistRec,
      moveQtyOf, moveSalesOf, moveTaxOf, deficitRatio, totalPosSales,
      totalMoveQty, totalMoveSales, totalMoveTax, r7d, r7r, min_def, abs]
  · norm_num [r7d]

/-- C7 amended: a zero-quantity donor moves zero quantity (its quantity is
unchanged and it contributes `0` to the bracket's accumulated quantity
total), but its sales amount and tax are still reduced by the factor
`min(1, |ending|)` and therefore change whenever they and that factor are
nonzero. -/
theorem C7_zero_qty_donor_amended (fd : List Rec) (g : ℚ) (i : ℕ) (r : Rec)
    (hi : fd[i]? = some r) (hg : r.tax_pct = g) (hneg : r.ending < 0) (hq : r.qty = 0)
    (hcd : donorsOf fd g ≠ []) (hcr : recipsOf fd g ≠ []) :
    (distributeGroup fd g)[i]? = some
      { r with total := r.total - r.total * min 1 |r.ending|,
               tax := r.tax - r.tax * min 1 |r.ending| } ∧
    moveQtyOf r = 0 := by
  have hdr : deficitRatio r = min 1 |r.ending| := by
    unfold deficitRatio
    rw [if_pos hq, div_one]
  have hmq : moveQtyOf r = 0 := by
    unfold moveQtyOf
    rw [hq, zero_mul]
  refine ⟨?_, hmq⟩
  unfold distributeGroup
  rw [if_pos ⟨hcd, hcr⟩, List.getElem?_map, hi, Option.map_some']
  rw [redistRec_donor fd g r hg hneg]
  refine congrArg some ?_
  unfold moveSalesOf moveTaxOf
  rw [hmq, hdr, sub_zero]

/-- Closed instance of the amended C7 on a concrete bracket. -/
theorem C7_zero_qty_donor_amended_witness :
    (distributeGroup [r7d, r7r] 9)[0]? = some
      { r7d with total := r7d.total - r7d.total * min 1 |r7d.ending|,
                 tax := r7d.tax - r7d.tax * min 1 |r7d.ending| } ∧
    moveQtyOf r7d = 0 :=
  C7_zero_qty_donor_amended [r7d, r7r] 9 0 r7d rfl rfl
    (by norm_num [r7d]) rfl
    (by norm_num [donorsOf, bracketOf, r7d, r7r, List.filter])
    (by norm_num [recipsOf, bracketOf, r7d, r7r, List.filter])

/-- C8: a tax bracket whose donor partition or recipient partition is empty
is left entirely untouched by the redistribution engine. -/
theorem C8_empty_partition_untouched (fd : List Rec) (g : ℚ)
    (hyp : donorsOf fd g = [] ∨ recipsOf fd g = []) :
    bracketOf (distribute fd) g = bracketOf fd g :=
  bracketOf_distribute_of_empty fd g hyp

/-- Closed instance of C8: a bracket with a donor but no recipient. -/
theorem C8_empty_partition_untouched_witness :
    bracketOf (distribute [r3d]) 9 = bracketOf [r3d] 9 :=
  C8_empty_partition_untouched [r3d] 9
    (Or.inr (by norm_num [recipsOf, bracketOf, r3d, List.filter]))

/-- C9: a row whose group key coerces to the empty string is skipped
entirely by the aggregator (and no empty-string group ever exists), while a
row whose value cell is absent or unparseable contributes exactly `0` to
its group's sum; the aggregator never fails. -/
theorem C9_aggregator_tolerance (pf : String → Option ℚ) (g : String)
    (s : Option String) (d : List Row) (row : Row) :
    ((getCell row (some g)).getD "" = "" →
      groupBySum pf (d ++ [row]) g s = groupBySum pf d g s) ∧
    (∀ c : String, (getCell row (some g)).getD "" = c → c ≠ "" →
      (getCell row s).bind pf = none →
      groupBySum pf (d ++ [row]) g s = alAdd (groupBySum pf d g s) c 0) ∧
    alGet (groupBySum pf (d ++ [row]) g s) "" = none := by
  have hstep : groupBySum pf (d ++ [row]) g s
      = gbsStep pf g s (groupBySum pf d g s) row := by
    unfold groupBySum
    rw [List.foldl_append]
    rfl
  refine ⟨?_, ?_, ?_⟩
  · intro hk
    rw [hstep]
    unfold gbsStep
    simp [hk]
  · intro c hkc hcne hparse
    rw [hstep]
    unfold gbsStep
    simp [hkc, hcne, parseNum, hparse]
  · exact groupBySum_empty_key pf (d ++ [row]) g s

/-- Closed instance of C9: an empty-key row is dropped; a row with an
unparseable quantity creates its group with sum `0`. -/
theorem C9_aggregator_tolerance_witness :
    groupBySum pfW [rowE] COL_S_CODE (some COL_S_QTY) = [] ∧
    groupBySum pfW [rowX] COL_S_CODE (some COL_S_QTY) = alAdd [] "X" 0 ∧
    alGet (groupBySum pfW [rowX] COL_S_CODE (some COL_S_QTY)) "" = none := by
  have h1 := (C9_aggregator_tolerance pfW COL_S_CODE (some COL_S_QTY) [] rowE).1
    (by decide)
  have h2 := (C9_aggregator_tolerance pfW COL_S_CODE (some COL_S_QTY) [] rowX).2.1
    "X" (by decide) (by decide) (by decide)
  have h3 := (C9_aggregator_tolerance pfW COL_S_CODE (some COL_S_QTY) [] rowX).2.2
  refine ⟨?_, ?_, ?_⟩
  · simpa [groupBySum] using h1
  · simpa [groupBySum] using h2
  · simpa using h3

/-- C10: when the universal code set is empty and the sales target is
nonzero, the sales-pass remainder correction indexes into the empty record
list and the run aborts with a runtime error instead of producing a report;
the tax pass, by contrast, can never fail. -/
theorem C10_sales_pass_crash (pf : String → Option ℚ) (L : Ledgers) (tS tT : ℚ)
    (hcodes : allCodesModel pf L = []) (htS : tS ≠ 0) :
    processData pf L tS tT = none ∧
    ∀ recs : List (ℚ × ℚ), taxPassAux tT recs ≠ none := by
  constructor
  · rw [processData_eq_none_iff]
    refine ⟨?_, htS⟩
    unfold buildFinalData
    rw [hcodes]
    rfl
  · intro recs hn
    obtain ⟨out, hout⟩ := taxPassAux_isSome tT recs
    rw [hout] at hn
    exact absurd hn (by simp)

/-- Closed instance of C10: empty ledgers and a nonzero sales target crash
the run; the tax pass stays total. -/
theorem C10_sales_pass_crash_witness :
    processData pfW LE 5 7 = none ∧ taxPassAux 7 [((0:ℚ), 1)] ≠ none := by
  have h := C10_sales_pass_crash pfW LE 5 7
    (by simp +decide [allCodesModel, allCodesOf, groupBySum, dedupL, salesCodes,
      getCell, pfW, LE, COL_S_CODE, getQtyCol, qtyCandidates, trimStr, gbsStep, alAdd,
      List.find?, List.findSome?, List.filterMap])
    (by norm_num)
  exact ⟨h.1, h.2 [(0, 1)]⟩

end Reconcile
